import Mathlib

/-!
# Verification of the aiocouchdb streaming multipart reader

A shallow embedding of `aiocouchdb/multipart.py` (classes `BodyPartReader`
and `MultipartReader`).  Byte strings are modelled as `List Char`; the shared
content stream is modelled by explicit state passing of the remaining bytes.
Python coroutine methods become pure functions threading the stream; loops
(`while not self._at_eof`) take an explicit fuel argument, and running out of
fuel is reported as the distinguished error `Err.noFuel` (the Python code can
genuinely spin forever on a truncated stream, so fuel is part of the model,
not a shortcut).  Exceptions (`ValueError`, `AssertionError`,
`AttributeError`, `KeyError`) become the `Err` error type through `Except`.
-/

set_option maxRecDepth 4000

/-- Byte strings (Python `bytes`) as lists of characters. -/
abbrev Bytes := List Char

/-- Convert a string literal to our byte-string model. -/
def bs (s : String) : Bytes := s.toList

/-- The CRLF line terminator `b"\r\n"`. -/
def crlf : Bytes := ['\r', '\n']

/-- The two dashes `b"--"` appended to a boundary to form the terminator. -/
def dd : Bytes := ['-', '-']

/-- ASCII whitespace stripped by Python `bytes.rstrip()` with no argument. -/
def wsChars : List Char := [' ', '\t', '\n', '\r', '\x0b', '\x0c']

/-- Python `bytes.rstrip(set)`: remove trailing characters drawn from `cs`. -/
def rstripSet (cs : List Char) (b : Bytes) : Bytes :=
  (b.reverse.dropWhile (fun c => cs.contains c)).reverse

/-- Python `line.rstrip(b"\r\n")`. -/
def rstripCRLF (b : Bytes) : Bytes := rstripSet ['\r', '\n'] b

/-- Python `chunk.rstrip()` (all ASCII whitespace). -/
def rstripWS (b : Bytes) : Bytes := rstripSet wsChars b

/-- Python `str.strip()` on both ends (used by `_read_headers`). -/
def stripWS (b : Bytes) : Bytes :=
  ((b.dropWhile (fun c => wsChars.contains c)).reverse.dropWhile
    (fun c => wsChars.contains c)).reverse

/-- The content stream's `readline()`: returns the bytes up to and including
the first `\n` (or the whole remainder if none), plus the rest of the stream.
On an exhausted stream it returns the empty line, exactly as an asyncio
stream at EOF does. -/
def streamReadline : Bytes → Bytes × Bytes
  | [] => ([], [])
  | c :: rest =>
    if c = '\n' then ([c], rest)
    else
      let (l, r) := streamReadline rest
      (c :: l, r)

/-- The content stream's `read(n)`: up to `n` bytes (fewer at end of stream). -/
def streamRead (n : Nat) (s : Bytes) : Bytes × Bytes := (s.take n, s.drop n)

/-- Errors surfaced by the multipart reader.  Each constructor corresponds to
a Python exception raised by `multipart.py`:
`valueError` to the `ValueError` of `_read_boundary`, `assertionError` to the
`assert` statements, `attributeError` to the `getattr` failure of `decode`,
`keyError` to missing mandatory headers/parameters, `zlibError` to a
decompression failure, `malformedHeaders` to a header-parse failure.
`noFuel` marks loop-fuel exhaustion (Python: nontermination). -/
inductive Err where
  | noFuel : Err
  | valueError (chunk expected : Bytes) : Err
  | assertionError (msg : String) : Err
  | attributeError (name : Bytes) : Err
  | keyError (key : Bytes) : Err
  | zlibError : Err
  | malformedHeaders : Err
deriving Repr, DecidableEq

/-- Header mappings.  `aiocouchdb.hdrs` / aiohttp's `HttpParser` (external to
this repository) normalise header names to upper case; headers are modelled
as association lists of upper-cased names and raw values, with first-match
lookup. -/
abbrev Headers := List (Bytes × Bytes)

/-- `headers.get(name)` — first matching entry. -/
def Headers.get (h : Headers) (k : Bytes) : Option Bytes :=
  match h with
  | [] => none
  | (k', v) :: t => if k' = k then some v else Headers.get t k

/-- The `CONTENT-TYPE` header name constant (from `aiocouchdb.hdrs`). -/
def CONTENT_TYPE : Bytes := bs "CONTENT-TYPE"

/-- The `CONTENT-LENGTH` header name constant (from `aiocouchdb.hdrs`). -/
def CONTENT_LENGTH : Bytes := bs "CONTENT-LENGTH"

/-- The `CONTENT-ENCODING` header name constant (from `aiocouchdb.hdrs`). -/
def CONTENT_ENCODING : Bytes := bs "CONTENT-ENCODING"

/-- ASCII lower-casing of a character (Python `str.lower` on ASCII data). -/
def asciiLower (c : Char) : Char :=
  if 'A' ≤ c ∧ c ≤ 'Z' then Char.ofNat (c.toNat + 32) else c

/-- Split a byte string on a separator character (Python `split(sep)`). -/
def splitOnChar (sep : Char) : Bytes → List Bytes
  | [] => [[]]
  | c :: rest =>
    let r := splitOnChar sep rest
    if c = sep then [] :: r
    else
      match r with
      | [] => [[c]]
      | h :: t => (c :: h) :: t

/-- Python `item.split('=', 1)`: split at the first occurrence only. -/
def splitFirst (sep : Char) : Bytes → Option (Bytes × Bytes)
  | [] => none
  | c :: rest =>
    if c = sep then some ([], rest)
    else
      match splitFirst sep rest with
      | none => none
      | some (a, b) => some (c :: a, b)

/-- Python `value.strip(' "')` used by `parse_mimetype` on parameter values. -/
def stripQuotesSpace (b : Bytes) : Bytes :=
  let cs : List Char := [' ', '"']
  ((b.dropWhile (fun c => cs.contains c)).reverse.dropWhile
    (fun c => cs.contains c)).reverse

/-- Modelled from the spec: aiohttp's `parse_mimetype` helper (an external
collaborator, not part of this repository) — the media type is the segment
before the first `/` of the first `;`-separated field, lower-cased and
stripped. -/
def mimeMtype (ct : Bytes) : Bytes :=
  match ct with
  | [] => []
  | _ =>
    let fulltype := (stripWS ((splitOnChar ';' ct).headD [])).map asciiLower
    match splitFirst '/' fulltype with
    | none => fulltype
    | some (m, _) => m

/-- Modelled from the spec: `parse_mimetype`'s parameter dictionary — each
further `;`-separated field is split at its first `=`; keys are lower-cased
and stripped, values stripped of spaces and double quotes. -/
def mimeParams (ct : Bytes) : List (Bytes × Bytes) :=
  match ct with
  | [] => []
  | _ =>
    ((splitOnChar ';' ct).tail.filterMap fun item =>
      if item = [] then none
      else
        match splitFirst '=' item with
        | none => some ((stripWS item).map asciiLower, [])
        | some (k, v) => some ((stripWS k).map asciiLower, stripQuotesSpace v))

/-- Last-wins dictionary lookup (`dict(params)` keeps the last duplicate). -/
def paramsGet (ps : List (Bytes × Bytes)) (k : Bytes) : Option Bytes :=
  match ps.reverse.find? (fun p => p.1 = k) with
  | none => none
  | some p => some p.2

/-- Python `int(...)` on a Content-Length value: strip, then decimal digits. -/
def parseNat (b : Bytes) : Option Nat :=
  let t := stripWS b
  if t = [] then none
  else if t.all (fun c => '0' ≤ c ∧ c ≤ '9') then
    some (t.foldl (fun acc c => acc * 10 + (c.toNat - '0'.toNat)) 0)
  else none

/-- State of a `BodyPartReader`: the part headers, the owning reader's
boundary token, the `_at_eof` flag, the parsed `Content-Length` (`_length`),
the `_read_bytes` counter and the `_unread` pushback buffer (a stack whose
top is the last element). -/
structure BodyPart where
  headers : Headers
  boundary : Bytes
  at_eof : Bool
  length : Option Nat
  read_bytes : Nat
  unread : List Bytes
deriving Repr, DecidableEq

/-- `BodyPartReader.__init__`: parses `Content-Length` if present.  Python
`int()` raises on a non-numeric value, hence the `Except`. -/
def BodyPart.init (boundary : Bytes) (headers : Headers) : Except Err BodyPart :=
  match headers.get CONTENT_LENGTH with
  | none => .ok ⟨headers, boundary, false, none, 0, []⟩
  | some v =>
    match parseNat v with
    | none => .error (.valueError v (bs "int"))
    | some n => .ok ⟨headers, boundary, false, some n, 0, []⟩

/-- The `chunk_size` class attribute of `BodyPartReader`. -/
def BodyPart.chunk_size : Nat := 8192

/-- `BodyPartReader.read_chunk(size)`: returns immediately at eof; asserts a
Content-Length is present; otherwise requests `min(size, remaining)` bytes
from the stream, advances `_read_bytes` by that requested amount (not by the
number of bytes actually delivered) and flips `_at_eof` when the counter
reaches the declared length. -/
def BodyPart.read_chunk (bp : BodyPart) (size : Nat) (s : Bytes) :
    Except Err (Bytes × BodyPart × Bytes) :=
  if bp.at_eof then .ok ([], bp, s)
  else
    match bp.length with
    | none => .error (.assertionError "Content-Length required for chunked read")
    | some len =>
      let c := min size (len - bp.read_bytes)
      let rb := bp.read_bytes + c
      .ok (s.take c,
           { bp with read_bytes := rb, at_eof := rb == len },
           s.drop c)

/-- `BodyPartReader.readline()`: one physical line, except that a line
starting with the boundary whose `rstrip(b"\r\n")` equals the boundary or
the boundary plus `--` ends the part: empty result, `_at_eof` set, and the
raw line pushed onto `_unread`. -/
def BodyPart.readline (bp : BodyPart) (s : Bytes) :
    Except Err (Bytes × BodyPart × Bytes) :=
  if bp.at_eof then .ok ([], bp, s)
  else
    let (line, s') := streamReadline s
    if bp.boundary.isPrefixOf line then
      let sline := rstripCRLF line
      if sline = bp.boundary ∨ sline = bp.boundary ++ dd then
        .ok ([], { bp with at_eof := true, unread := bp.unread ++ [line] }, s')
      else .ok (line, bp, s')
    else .ok (line, bp, s')

/-- The `while not self._at_eof: data.extend(readline())` loop of
`BodyPartReader.read` in line-bounded mode. -/
def BodyPart.readAllLines (fuel : Nat) (bp : BodyPart) (s : Bytes) (acc : Bytes) :
    Except Err (Bytes × BodyPart × Bytes) :=
  match fuel with
  | 0 => .error .noFuel
  | fuel + 1 =>
    if bp.at_eof then .ok (acc, bp, s)
    else
      match bp.readline s with
      | .error e => .error e
      | .ok (l, bp', s') => BodyPart.readAllLines fuel bp' s' (acc ++ l)

/-- The `while not self._at_eof: data.extend(read_chunk(chunk_size))` loop of
`BodyPartReader.read` in length-bounded mode. -/
def BodyPart.readAllChunks (fuel : Nat) (bp : BodyPart) (s : Bytes) (acc : Bytes) :
    Except Err (Bytes × BodyPart × Bytes) :=
  match fuel with
  | 0 => .error .noFuel
  | fuel + 1 =>
    if bp.at_eof then .ok (acc, bp, s)
    else
      match bp.read_chunk BodyPart.chunk_size s with
      | .error e => .error e
      | .ok (l, bp', s') => BodyPart.readAllChunks fuel bp' s' (acc ++ l)

/-- Modelled from the spec: `zlib` raw-DEFLATE compression (the library is
external to this repository); modelled as an executable invertible coding —
the specification's only demand on it is the decode-after-encode round trip. -/
def deflateRawCompress (data : Bytes) : Bytes := data.reverse

/-- `BodyPartReader.decode_deflate`: `zlib.decompress(data, -zlib.MAX_WBITS)`,
the inverse of `deflateRawCompress`. -/
def BodyPart.decode_deflate (data : Bytes) : Except Err Bytes :=
  .ok data.reverse

/-- Modelled from the spec: the two-byte gzip magic header of the external
`zlib`/gzip framing. -/
def gzipMagic : Bytes := ['\x1f', '\x8b']

/-- Modelled from the spec: gzip compression (external library) — the
invertible coding paired with `BodyPart.decode_gzip`. -/
def gzipCompress (data : Bytes) : Bytes := gzipMagic ++ data.reverse

/-- `BodyPartReader.decode_gzip`: `zlib.decompress(data, 16+zlib.MAX_WBITS)`,
the inverse of `gzipCompress`; a missing gzip frame is a `zlib.error`. -/
def BodyPart.decode_gzip (data : Bytes) : Except Err Bytes :=
  if data.take 2 = gzipMagic then .ok ((data.drop 2).reverse)
  else .error .zlibError

/-- `BodyPartReader.decode`: a falsy (absent or empty) `Content-Encoding`
passes the data through; otherwise `getattr(self, 'decode_%s' % encoding)`
dispatches to `decode_deflate` / `decode_gzip` and raises `AttributeError`
for every other name. -/
def BodyPart.decode (bp : BodyPart) (data : Bytes) : Except Err Bytes :=
  match bp.headers.get CONTENT_ENCODING with
  | none => .ok data
  | some enc =>
    if enc = [] then .ok data
    else if enc = bs "deflate" then BodyPart.decode_deflate data
    else if enc = bs "gzip" then BodyPart.decode_gzip data
    else .error (.attributeError (bs "decode_" ++ enc))

/-- `BodyPartReader.read(decode=...)`: returns empty at eof; otherwise drains
the part in its mode.  In length-bounded mode the reader then asserts that
exactly the CRLF terminator follows on the stream.  With `decode` the
accumulated data is passed through `BodyPart.decode`. -/
def BodyPart.read (fuel : Nat) (bp : BodyPart) (decode : Bool) (s : Bytes) :
    Except Err (Bytes × BodyPart × Bytes) :=
  if bp.at_eof then .ok ([], bp, s)
  else
    let step : Except Err (Bytes × BodyPart × Bytes) :=
      match bp.length with
      | none => BodyPart.readAllLines fuel bp s []
      | some _ =>
        match BodyPart.readAllChunks fuel bp s [] with
        | .error e => .error e
        | .ok (data, bp', s') =>
          let (l, s'') := streamReadline s'
          if l = crlf then .ok (data, bp', s'')
          else .error (.assertionError
            "reader did not read all the data or it is malformed")
    match step with
    | .error e => .error e
    | .ok (data, bp', s') =>
      if decode then
        match bp'.decode data with
        | .error e => .error e
        | .ok d => .ok (d, bp', s')
      else .ok (data, bp', s')

/-- `BodyPartReader.release()`: drains the part exactly as `read` does but
discards the data (the state evolution is identical to `read` without
decoding). -/
def BodyPart.release (fuel : Nat) (bp : BodyPart) (s : Bytes) :
    Except Err (BodyPart × Bytes) :=
  if bp.at_eof then .ok (bp, s)
  else
    match bp.length with
    | none =>
      match BodyPart.readAllLines fuel bp s [] with
      | .error e => .error e
      | .ok (_, bp', s') => .ok (bp', s')
    | some _ =>
      match BodyPart.readAllChunks fuel bp s [] with
      | .error e => .error e
      | .ok (_, bp', s') =>
        let (l, s'') := streamReadline s'
        if l = crlf then .ok (bp', s'')
        else .error (.assertionError "release terminator mismatch")

/-- The state of a `MultipartReader` together with the parts it can yield.
`MPart` is the tagged union of the two kinds of "part" that
`MultipartReader._get_part_reader` can construct: a `BodyPartReader` or a
nested `MultipartReader` (the spec's design note asks for exactly this
tagged-union modelling of the self-referential class).  An `MReader` holds
the response headers, the boundary token `b"--" + boundary-parameter`, the
`_at_eof` flag, the `_last_part` reference and the `_unread` pushback
stack. -/
inductive MPart : Type where
  | body : BodyPart → MPart
  | multi : Headers → Bytes → Bool → Option MPart → List Bytes → MPart

/-- A `MultipartReader` state is the `multi` branch of the tagged union. -/
abbrev MReader := MPart

/-- Make an `MReader` from its five fields, in declaration order
(headers, boundary, `_at_eof`, `_last_part`, `_unread`). -/
def MReader.mk (headers : Headers) (boundary : Bytes) (at_eof : Bool)
    (last_part : Option MPart) (unread : List Bytes) : MReader :=
  .multi headers boundary at_eof last_part unread

/-- `_at_eof` of either kind of part. -/
def MPart.at_eof : MPart → Bool
  | .body bp => bp.at_eof
  | .multi _ _ e _ _ => e

/-- `_unread` of either kind of part. -/
def MPart.unread : MPart → List Bytes
  | .body bp => bp.unread
  | .multi _ _ _ _ u => u

/-- The boundary token of a reader state. -/
def MReader.boundary : MReader → Bytes
  | .multi _ b _ _ _ => b
  | .body bp => bp.boundary

/-- The headers of a reader state. -/
def MReader.headers : MReader → Headers
  | .multi h _ _ _ _ => h
  | .body bp => bp.headers

/-- The `_at_eof` flag of a reader state. -/
def MReader.at_eof (r : MReader) : Bool := MPart.at_eof r

/-- The `_last_part` field of a reader state. -/
def MReader.last_part : MReader → Option MPart
  | .multi _ _ _ p _ => p
  | .body _ => none

/-- The `_unread` pushback stack of a reader state. -/
def MReader.unread (r : MReader) : List Bytes := MPart.unread r

/-- Replace `_last_part` (used to model the Python aliasing between the part
object handed to the caller and the reader's own `_last_part` reference:
mutation of the one is mutation of the other). -/
def MReader.setLastPart (r : MReader) (p : Option MPart) : MReader :=
  match r with
  | .multi h b e _ u => .multi h b e p u
  | .body bp => .body bp

/-- `MultipartReader.__init__` / `_get_boundary`: requires a `Content-Type`
header (`KeyError` otherwise), asserts the media type is `multipart`, and
requires the `boundary` parameter (`KeyError` otherwise); the token compared
against the stream is `b"--" + boundary`. -/
def MReader.init (headers : Headers) : Except Err MReader :=
  match headers.get CONTENT_TYPE with
  | none => .error (.keyError CONTENT_TYPE)
  | some ct =>
    if mimeMtype ct ≠ bs "multipart" then
      .error (.assertionError "mimetype is not multipart")
    else
      match paramsGet (mimeParams ct) (bs "boundary") with
      | none => .error (.keyError (bs "boundary"))
      | some b => .ok (.multi headers (dd ++ b) false none [])

/-- `MultipartReader._readline`: prefer the top of the `_unread` stack
(`list.pop()` removes the LAST element), else read from the stream. -/
def MReader.mreadline (r : MReader) (s : Bytes) : Bytes × MReader × Bytes :=
  match r with
  | .multi h b e p u =>
    match u.getLast? with
    | some line => (line, .multi h b e p u.dropLast, s)
    | none =>
      let (line, s') := streamReadline s
      (line, .multi h b e p u, s')
  | .body bp =>
    let (line, s') := streamReadline s
    (line, .body bp, s')

/-- Set `_at_eof := true` on a reader state. -/
def MReader.withEof : MReader → MReader
  | .multi h b _ p u => .multi h b true p u
  | .body bp => .body bp

/-- `MultipartReader._read_boundary`: read one (possibly pushed-back) line,
`rstrip()` all trailing whitespace, and compare: the delimiter passes, the
terminator sets `_at_eof`, anything else raises `ValueError`. -/
def MReader.readBoundary (r : MReader) (s : Bytes) :
    Except Err (MReader × Bytes) :=
  let (line, r', s') := MReader.mreadline r s
  let chunk := rstripWS line
  if chunk = r'.boundary then .ok (r', s')
  else if chunk = r'.boundary ++ dd then .ok (r'.withEof, s')
  else .error (.valueError chunk r'.boundary)

/-- `MultipartReader._read_headers`: read raw lines straight from the stream
(never from `_unread`), strip each, stop at the first blank one; the
accumulated lines are parsed into a header mapping. -/
def readHeaderLines (fuel : Nat) (s : Bytes) :
    Except Err (List Bytes × Bytes) :=
  match fuel with
  | 0 => .error .noFuel
  | fuel + 1 =>
    let (line, s') := streamReadline s
    let chunk := stripWS line
    if chunk = [] then .ok ([], s')
    else
      match readHeaderLines fuel s' with
      | .error e => .error e
      | .ok (ls, s'') => .ok (chunk :: ls, s'')

/-- Modelled from the spec: aiohttp's `HttpParser.parse_headers` (external to
this repository) — each stripped line `Name: value` is split at its first
colon into an upper-cased name and a stripped value; a line without a colon
is a fatal malformed-header-block condition. -/
def parseHeaderLines (ls : List Bytes) : Except Err Headers :=
  match ls with
  | [] => .ok []
  | l :: t =>
    match splitFirst ':' l with
    | none => .error .malformedHeaders
    | some (n, v) =>
      match parseHeaderLines t with
      | .error e => .error e
      | .ok hs => .ok (((stripWS n).map Char.toUpper, stripWS v) :: hs)

/-- `MultipartReader._read_headers` composed with header parsing. -/
def readHeaders (fuel : Nat) (s : Bytes) : Except Err (Headers × Bytes) :=
  match readHeaderLines fuel s with
  | .error e => .error e
  | .ok (ls, s') =>
    match parseHeaderLines ls with
    | .error e => .error e
    | .ok hs => .ok (hs, s')

/-- `MultipartReader._get_part_reader`: dispatch on the part's own
`Content-Type` — media type `multipart` constructs a nested reader from the
part's headers (`multipart_reader_cls is None` points back to `type(self)`),
anything else a `BodyPartReader` carrying this reader's boundary token.  The
stream is shared: in this model it is the single external stream state. -/
def MReader.getPartReader (r : MReader) (headers : Headers) : Except Err MPart :=
  let ctype := (headers.get CONTENT_TYPE).getD []
  if mimeMtype ctype = bs "multipart" then
    MReader.init headers
  else
    match BodyPart.init r.boundary headers with
    | .error e => .error e
    | .ok bp => .ok (.body bp)

/-- `MultipartReader.fetch_next_part`: parse the header block, dispatch. -/
def MReader.fetchNextPart (fuel : Nat) (r : MReader) (s : Bytes) :
    Except Err (MPart × Bytes) :=
  match readHeaders fuel s with
  | .error e => .error e
  | .ok (hs, s') =>
    match r.getPartReader hs with
    | .error e => .error e
    | .ok p => .ok (p, s')

mutual

/-- `MultipartReader.next()`: return immediately at eof; otherwise drain the
previous part if needed, read and classify a boundary line, and either stop
(terminator) or fetch the next part and remember it as `_last_part`. -/
def MReader.next (fuel : Nat) (r : MReader) (s : Bytes) :
    Except Err (Option MPart × MReader × Bytes) :=
  match fuel with
  | 0 => .error .noFuel
  | fuel + 1 =>
    if r.at_eof then .ok (none, r, s)
    else
      match MReader.maybeReleaseLastPart fuel r s with
      | .error e => .error e
      | .ok (r₁, s₁) =>
        match r₁.readBoundary s₁ with
        | .error e => .error e
        | .ok (r₂, s₂) =>
          if r₂.at_eof then .ok (none, r₂, s₂)
          else
            match r₂.fetchNextPart fuel s₂ with
            | .error e => .error e
            | .ok (p, s₃) => .ok (some p, r₂.setLastPart (some p), s₃)

/-- `MultipartReader.release()`: loop `next()` + release of the yielded part
until eof.  The released part value also replaces `_last_part`, modelling the
Python aliasing between `item` and `self._last_part`. -/
def MReader.release (fuel : Nat) (r : MReader) (s : Bytes) :
    Except Err (MReader × Bytes) :=
  match fuel with
  | 0 => .error .noFuel
  | fuel + 1 =>
    if r.at_eof then .ok (r, s)
    else
      match MReader.next fuel r s with
      | .error e => .error e
      | .ok (none, r₁, s₁) => .ok (r₁, s₁)
      | .ok (some p, r₁, s₁) =>
        match MPart.releasePart fuel p s₁ with
        | .error e => .error e
        | .ok (p', s₂) => MReader.release fuel (r₁.setLastPart (some p')) s₂

/-- `release()` of a yielded part: `BodyPartReader.release` for a leaf,
`MultipartReader.release` for a nested reader. -/
def MPart.releasePart (fuel : Nat) (p : MPart) (s : Bytes) :
    Except Err (MPart × Bytes) :=
  match fuel with
  | 0 => .error .noFuel
  | fuel + 1 =>
    match p with
    | .body bp =>
      match BodyPart.release fuel bp s with
      | .error e => .error e
      | .ok (bp', s') => .ok (.body bp', s')
    | .multi h b e lp u => MReader.release fuel (.multi h b e lp u) s

/-- `MultipartReader._maybe_release_last_part`: if a previous part exists and
is not at eof, release it; then move its (post-release) `_unread` lines onto
this reader's own `_unread` stack and clear `_last_part`. -/
def MReader.maybeReleaseLastPart (fuel : Nat) (r : MReader) (s : Bytes) :
    Except Err (MReader × Bytes) :=
  match fuel with
  | 0 => .error .noFuel
  | fuel + 1 =>
    match r with
    | .body bp => .ok (.body bp, s)
    | .multi h b e lp u =>
      match lp with
      | none => .ok (.multi h b e none u, s)
      | some p =>
        if p.at_eof then
          .ok (.multi h b e none (u ++ p.unread), s)
        else
          match MPart.releasePart fuel p s with
          | .error e => .error e
          | .ok (p', s') =>
            .ok (.multi h b e none (u ++ p'.unread), s')

end

/-- Drive a whole multipart body: repeatedly call `next()`; on a leaf part,
call its `read()` (undecoded) and collect the payload, propagating the
caller's mutation of the part back into `_last_part` (Python aliasing); stop
when `next()` yields no part.  Yielding a nested reader stops the driver
(the flat-body theorems never hit that case). -/
def MReader.driveAll (fuel : Nat) (r : MReader) (s : Bytes)
    (acc : List Bytes) : Except Err (List Bytes × MReader × Bytes) :=
  match fuel with
  | 0 => .error .noFuel
  | fuel + 1 =>
    match MReader.next fuel r s with
    | .error e => .error e
    | .ok (none, r₁, s₁) => .ok (acc.reverse, r₁, s₁)
    | .ok (some (.multi _ _ _ _ _), _, _) =>
      .error (.assertionError "nested part in flat driver")
    | .ok (some (.body bp), r₁, s₁) =>
      match BodyPart.read fuel bp false s₁ with
      | .error e => .error e
      | .ok (data, bp', s₂) =>
        MReader.driveAll fuel (r₁.setLastPart (some (.body bp'))) s₂
          (data :: acc)

/-! ## Well-formed flat bodies, their serialization, and concrete states

The definitions below set up the vocabulary of the theorems that follow:
well-formedness of boundary tokens and payload lines, the serializer of a
flat multipart body, distinguished reader states, and the concrete inputs of
the witness theorems. -/

/-- A usable boundary token: nonempty, free of `\n` (a boundary line must be
one physical line) and with no trailing whitespace (so that `rstrip`-based
matching recognises it). -/
def wfBnd (bnd : Bytes) : Prop :=
  bnd ≠ [] ∧ '\n' ∉ bnd ∧ rstripWS bnd = bnd

/-- A payload line content `m` (the physical line is `m ++ "\n"`): one
physical line that the boundary test of `BodyPartReader.readline` does not
recognise as a delimiter or terminator. -/
def wfLine (bnd m : Bytes) : Prop :=
  '\n' ∉ m ∧ rstripCRLF m ≠ bnd ∧ rstripCRLF m ≠ bnd ++ dd

/-- Every line of the part is a well-formed payload line. -/
def wfPart (bnd : Bytes) (p : List Bytes) : Prop := ∀ m ∈ p, wfLine bnd m

instance (b : Bytes) : Decidable (wfBnd b) := by
  unfold wfBnd; infer_instance

instance (bnd m : Bytes) : Decidable (wfLine bnd m) := by
  unfold wfLine; infer_instance

instance (bnd : Bytes) (p : List Bytes) : Decidable (wfPart bnd p) := by
  unfold wfPart; infer_instance

/-- The payload bytes of a part: its lines, each closed by `\n`. -/
def lineJoin (p : List Bytes) : Bytes := (p.map (fun m => m ++ ['\n'])).flatten

/-- Serialize the remainder of a multipart body from a part list: each part
contributes its delimiter line, a blank line (empty header block) and its
payload; the empty list contributes the terminator line. -/
def serializeParts (bnd : Bytes) : List (List Bytes) → Bytes
  | [] => bnd ++ dd ++ crlf
  | p :: ps => bnd ++ crlf ++ (crlf ++ (lineJoin p ++ serializeParts bnd ps))

/-- The first boundary line of a serialized remainder: the delimiter if parts
remain, the terminator otherwise. -/
def headDelim (bnd : Bytes) (ps : List (List Bytes)) : Bytes :=
  match ps with
  | [] => bnd ++ dd ++ crlf
  | _ :: _ => bnd ++ crlf

/-- The bytes after the first boundary line of a serialized remainder. -/
def tailAfterDelim (bnd : Bytes) : List (List Bytes) → Bytes
  | [] => []
  | p :: ps => crlf ++ (lineJoin p ++ serializeParts bnd ps)

/-- A freshly constructed line-bounded `BodyPartReader` with empty headers. -/
def freshBP (bnd : Bytes) : BodyPart := ⟨[], bnd, false, none, 0, []⟩

/-- A fully drained line-bounded `BodyPartReader` holding the boundary line
`d` it consumed in its `_unread` pushback buffer. -/
def doneBP (bnd d : Bytes) : BodyPart := ⟨[], bnd, true, none, 0, [d]⟩

/-- Sufficient fuel to drive a whole serialized body: its total line count
plus a constant per part. -/
def fuelFor (ps : List (List Bytes)) : Nat :=
  (ps.map List.length).sum + 2 * ps.length + 3

/-- The boundary token of the two-part witness body. -/
def c1Bnd : Bytes := bs "--XBOUND"

/-- The two parts of the witness body, as payload line lists. -/
def c1Parts : List (List Bytes) := [[bs "hello\r"], [bs "world\r"]]

/-- The abandoned (never read) first part of the C2 witness scenario. -/
def c2Fresh : MPart := .body (freshBP c1Bnd)

/-- The stream head right after part 1's header block in the C2 scenario. -/
def c2Stream : Bytes := lineJoin [bs "hello\r"] ++ serializeParts c1Bnd [[bs "world\r"]]

/-- The stream right after the boundary line that closes part 1. -/
def c2Tail : Bytes := tailAfterDelim c1Bnd [[bs "world\r"]]

/-- Part 1 after draining: at eof, boundary line pushed back. -/
def c2Done : MPart := .body (doneBP c1Bnd (c1Bnd ++ crlf))

/-- A fresh line-bounded part on the boundary `--b` for the C5 witness. -/
def c5BP : BodyPart := ⟨[], bs "--b", false, none, 0, []⟩

/-- A caller-driven sequence of `read_chunk(size)` calls with the given
sizes, discarding the returned chunks (only the reader state and stream
position matter). -/
def applyChunks (sizes : List Nat) (bp : BodyPart) (s : Bytes) :
    Except Err (BodyPart × Bytes) :=
  match sizes with
  | [] => .ok (bp, s)
  | n :: t =>
    match bp.read_chunk n s with
    | .error e => .error e
    | .ok (_, bp', s') => applyChunks t bp' s'

/-- A fresh length-bounded part declaring five bytes, for the witnesses. -/
def c4BP : BodyPart := ⟨[(CONTENT_LENGTH, bs "5")], bs "--b", false, some 5, 0, []⟩

/-- A fresh line-bounded part (no Content-Length) for the C9 witness. -/
def c9LineBP : BodyPart := ⟨[], bs "--b", false, none, 0, []⟩

/-- A part declaring an empty Content-Encoding value, for the C7
counterexample. -/
def c7EmptyBP : BodyPart := ⟨[(CONTENT_ENCODING, [])], bs "--b", false, none, 0, []⟩

/-- A part declaring `Content-Encoding: gzip` for the C7 witness. -/
def c7GzipBP : BodyPart := ⟨[(CONTENT_ENCODING, bs "gzip")], bs "--b", false, none, 0, []⟩

/-- A part declaring the unsupported `Content-Encoding: br`. -/
def c7BrBP : BodyPart := ⟨[(CONTENT_ENCODING, bs "br")], bs "--b", false, none, 0, []⟩

/-- The parent reader of the C6 witness, on boundary `--PAR`. -/
def c6Parent : MReader := .multi [] (bs "--PAR") false none []

/-- A nested multipart content type declaring sub-boundary `SUB`. -/
def c6CT : Bytes := bs "multipart/related; boundary=SUB"

/-! ## Helper lemmas on stripping and line splitting -/

/-! ## Helper lemmas on stripping and line splitting -/

theorem dropWhile_append_all {p : Char → Bool} {l1 l2 : List Char}
    (h : ∀ a ∈ l1, p a = true) :
    List.dropWhile p (l1 ++ l2) = List.dropWhile p l2 := by
  induction l1 with
  | nil => rfl
  | cons a t ih =>
    simp only [List.cons_append, List.dropWhile_cons]
    rw [h a (by simp)]
    exact ih (fun x hx => h x (by simp [hx]))

theorem rstripSet_append_all {cs : List Char} {x suf : Bytes}
    (h : ∀ c ∈ suf, cs.contains c = true) :
    rstripSet cs (x ++ suf) = rstripSet cs x := by
  unfold rstripSet
  rw [List.reverse_append, dropWhile_append_all]
  intro a ha
  exact h a (List.mem_reverse.mp ha)

theorem rstripSet_concat_notMem {cs : List Char} {x : Bytes} {c : Char}
    (h : cs.contains c = false) :
    rstripSet cs (x ++ [c]) = x ++ [c] := by
  unfold rstripSet
  rw [List.reverse_append]
  simp only [List.reverse_cons, List.reverse_nil, List.nil_append,
    List.singleton_append, List.dropWhile_cons, h]
  simp

theorem dropWhile_sub {p q : Char → Bool} {l : List Char}
    (himp : ∀ c, q c = true → p c = true)
    (h : List.dropWhile p l = l) : List.dropWhile q l = l := by
  cases l with
  | nil => rfl
  | cons a t =>
    rw [List.dropWhile_cons] at h ⊢
    by_cases hp : p a = true
    · rw [if_pos hp] at h
      have hle : (List.dropWhile p t).length ≤ t.length :=
        (List.dropWhile_sublist p (l := t)).length_le
      have : (List.dropWhile p t).length = t.length + 1 := by rw [h]; simp
      omega
    · have hq : ¬ q a = true := fun hqa => hp (himp a hqa)
      rw [if_neg hq]

theorem rstripCRLF_of_rstripWS {b : Bytes} (h : rstripWS b = b) :
    rstripCRLF b = b := by
  unfold rstripWS rstripSet at h
  unfold rstripCRLF rstripSet
  have h' : b.reverse.dropWhile (fun c => wsChars.contains c) = b.reverse := by
    have := congrArg List.reverse h
    simpa using this
  rw [dropWhile_sub (q := fun c => List.contains ['\r', '\n'] c) ?imp h']
  · simp
  case imp =>
    intro c hc
    have hc' : c = '\r' ∨ c = '\n' := by simpa using hc
    rcases hc' with rfl | rfl <;> decide

theorem rstripCRLF_append_crlf {b : Bytes} :
    rstripCRLF (b ++ crlf) = rstripCRLF b := by
  unfold rstripCRLF
  apply rstripSet_append_all
  intro c hc
  simp only [crlf, List.mem_cons, List.not_mem_nil, or_false] at hc
  rcases hc with rfl | rfl <;> decide

theorem rstripWS_append_crlf {b : Bytes} :
    rstripWS (b ++ crlf) = rstripWS b := by
  unfold rstripWS
  apply rstripSet_append_all
  intro c hc
  simp only [crlf, List.mem_cons, List.not_mem_nil, or_false] at hc
  rcases hc with rfl | rfl <;> decide

theorem rstripWS_dd_concat {b : Bytes} : rstripWS (b ++ dd) = b ++ dd := by
  have : b ++ dd = (b ++ ['-']) ++ ['-'] := by simp [dd]
  rw [this]
  exact rstripSet_concat_notMem (by decide)

theorem rstripCRLF_dd_concat {b : Bytes} : rstripCRLF (b ++ dd) = b ++ dd := by
  have : b ++ dd = (b ++ ['-']) ++ ['-'] := by simp [dd]
  rw [this]
  exact rstripSet_concat_notMem (by decide)

theorem streamReadline_line {m rest : Bytes} (h : '\n' ∉ m) :
    streamReadline (m ++ '\n' :: rest) = (m ++ ['\n'], rest) := by
  induction m with
  | nil => simp [streamReadline]
  | cons c t ih =>
    have hc : ¬ c = '\n' := fun hc => h (by simp [hc])
    have ht : '\n' ∉ t := fun hm => h (by simp [hm])
    have ih' := ih ht
    simp only [List.cons_append, streamReadline, if_neg hc, List.append_eq, ih']

theorem append_dd_ne_self {b : Bytes} : b ++ dd ≠ b := by
  intro h
  have := congrArg List.length h
  simp [dd] at this

/-! ## Well-formed multipart bodies and their serialization

A well-formed flat multipart body is described by its boundary token and the
list of its parts, each part being the list of its payload lines (line
contents without the final `\n`; a CRLF-terminated line keeps its `\r`).
Parts are serialized with an empty header block (just the blank line), which
`_read_headers` parses to an empty mapping — the line-bounded
`BodyPartReader` mode. -/

theorem serializeParts_split (bnd : Bytes) (ps : List (List Bytes)) :
    serializeParts bnd ps = headDelim bnd ps ++ tailAfterDelim bnd ps := by
  cases ps <;> simp [serializeParts, headDelim, tailAfterDelim]

theorem rstripCRLF_append_lf {m : Bytes} :
    rstripCRLF (m ++ ['\n']) = rstripCRLF m := by
  unfold rstripCRLF
  apply rstripSet_append_all
  intro c hc
  simp only [List.mem_cons, List.not_mem_nil, or_false] at hc
  subst hc; decide

/-- Any byte string splits as its `rstripSet` core plus a stripped suffix. -/
theorem rstripSet_decomp (cs : List Char) (l : Bytes) :
    ∃ suf, l = rstripSet cs l ++ suf ∧ ∀ c ∈ suf, cs.contains c = true := by
  refine ⟨(l.reverse.takeWhile (fun c => cs.contains c)).reverse, ?_, ?_⟩
  · unfold rstripSet
    rw [← List.reverse_append, List.takeWhile_append_dropWhile, List.reverse_reverse]
  · intro c hc
    exact List.mem_takeWhile_imp (List.mem_reverse.mp hc)

/-! ## `BodyPartReader` line-mode lemmas -/

/-- `readline` on a well-formed payload line returns the line unchanged and
leaves the part state untouched. -/
theorem readline_payload {bp : BodyPart} (hbe : bp.at_eof = false)
    {m rest : Bytes} (hm : wfLine bp.boundary m) :
    bp.readline (m ++ '\n' :: rest) = .ok (m ++ ['\n'], bp, rest) := by
  obtain ⟨hnl, hne1, hne2⟩ := hm
  have hsl : rstripCRLF (m ++ ['\n']) = rstripCRLF m := rstripCRLF_append_lf
  simp only [BodyPart.readline, hbe, Bool.false_eq_true, if_false,
    streamReadline_line hnl]
  by_cases hpre : bp.boundary.isPrefixOf (m ++ ['\n'])
  · rw [if_pos hpre, hsl, if_neg]
    push_neg
    exact ⟨hne1, hne2⟩
  · rw [if_neg hpre]

/-- `readline` on a boundary line (delimiter or terminator) of a well-formed
boundary: empty result, `_at_eof` set, raw line pushed onto `_unread`. -/
theorem readline_boundary {bp : BodyPart} (hbe : bp.at_eof = false)
    (hwb : wfBnd bp.boundary) {d rest : Bytes}
    (hd : d = bp.boundary ++ crlf ∨ d = bp.boundary ++ dd ++ crlf) :
    bp.readline (d ++ rest)
      = .ok ([], { bp with at_eof := true, unread := bp.unread ++ [d] }, rest) := by
  obtain ⟨hbne, hbnl, hbws⟩ := hwb
  have hread : streamReadline (d ++ rest) = (d, rest) := by
    rcases hd with rfl | rfl
    · have : bp.boundary ++ crlf ++ rest = (bp.boundary ++ ['\r']) ++ '\n' :: rest := by
        simp [crlf]
      rw [this, streamReadline_line (by
        intro hmem
        rcases List.mem_append.mp hmem with h | h
        · exact hbnl h
        · simp at h)]
      simp [crlf]
    · have : bp.boundary ++ dd ++ crlf ++ rest
          = (bp.boundary ++ dd ++ ['\r']) ++ '\n' :: rest := by
        simp [crlf]
      rw [this, streamReadline_line (by
        intro hmem
        rcases List.mem_append.mp hmem with h | h
        · rcases List.mem_append.mp h with h' | h'
          · exact hbnl h'
          · simp [dd] at h'
        · simp at h)]
      simp [crlf]
  have hpre : bp.boundary.isPrefixOf d = true := by
    rw [List.isPrefixOf_iff_prefix]
    rcases hd with rfl | rfl
    · exact List.prefix_append _ _
    · rw [List.append_assoc]
      exact List.prefix_append _ _
  have hsl : rstripCRLF d = bp.boundary ∨ rstripCRLF d = bp.boundary ++ dd := by
    rcases hd with rfl | rfl
    · left
      rw [rstripCRLF_append_crlf, rstripCRLF_of_rstripWS hbws]
    · right
      rw [rstripCRLF_append_crlf, rstripCRLF_dd_concat]
  simp only [BodyPart.readline, hbe, Bool.false_eq_true, if_false, hread,
    hpre, if_pos trivial, if_true]
  rw [if_pos hsl]

theorem lineJoin_nil : lineJoin [] = [] := rfl

theorem lineJoin_cons (m : Bytes) (p : List Bytes) :
    lineJoin (m :: p) = (m ++ ['\n']) ++ lineJoin p := by
  simp [lineJoin]

/-- The `read` loop of a fresh line-bounded part over its payload followed by
the serialized remainder: it accumulates exactly the payload, consumes the
following boundary line into `_unread`, and leaves the stream right after
that line. -/
theorem readAllLines_fresh {bnd : Bytes} (hwb : wfBnd bnd) :
    ∀ (p : List Bytes) (F : Nat) (acc : Bytes) (ps' : List (List Bytes)),
    wfPart bnd p → p.length + 2 ≤ F →
    BodyPart.readAllLines F (freshBP bnd) (lineJoin p ++ serializeParts bnd ps') acc
      = .ok (acc ++ lineJoin p, doneBP bnd (headDelim bnd ps'),
             tailAfterDelim bnd ps') := by
  intro p
  induction p with
  | nil =>
    intro F acc ps' _ hF
    obtain ⟨f, rfl⟩ : ∃ f, F = f + 1 := ⟨F - 1, by omega⟩
    obtain ⟨g, rfl⟩ : ∃ g, f = g + 1 := ⟨f - 1, by omega⟩
    have hb : (freshBP bnd).boundary = bnd := rfl
    have hrl := @readline_boundary (freshBP bnd) rfl (hb ▸ hwb)
      (headDelim bnd ps') (tailAfterDelim bnd ps')
      (by cases ps' <;> simp [headDelim, hb, List.append_assoc])
    simp only [lineJoin_nil, List.nil_append, serializeParts_split bnd ps']
    simp only [BodyPart.readAllLines, freshBP, Bool.false_eq_true, if_false]
    rw [show (⟨[], bnd, false, none, 0, []⟩ : BodyPart) = freshBP bnd from rfl, hrl]
    simp only [BodyPart.readAllLines, doneBP, freshBP]
    simp [doneBP]
  | cons m p ih =>
    intro F acc ps' hwp hF
    obtain ⟨f, rfl⟩ : ∃ f, F = f + 1 := ⟨F - 1, by omega⟩
    have hm : wfLine (freshBP bnd).boundary m := hwp m (by simp)
    have hstream : lineJoin (m :: p) ++ serializeParts bnd ps'
        = m ++ '\n' :: (lineJoin p ++ serializeParts bnd ps') := by
      rw [lineJoin_cons]
      simp
    rw [hstream]
    simp only [BodyPart.readAllLines, freshBP, Bool.false_eq_true, if_false]
    rw [show (⟨[], bnd, false, none, 0, []⟩ : BodyPart) = freshBP bnd from rfl,
      readline_payload rfl hm]
    show BodyPart.readAllLines f (freshBP bnd)
      (lineJoin p ++ serializeParts bnd ps') (acc ++ (m ++ ['\n'])) = _
    rw [ih f (acc ++ (m ++ ['\n'])) ps' (fun x hx => hwp x (by simp [hx]))
      (by simp at hF ⊢; omega)]
    rw [lineJoin_cons]
    simp

/-- `BodyPartReader.read()` (undecoded) of a fresh line-bounded part. -/
theorem read_fresh {bnd : Bytes} (hwb : wfBnd bnd) (p : List Bytes)
    (F : Nat) (ps' : List (List Bytes)) (hwp : wfPart bnd p)
    (hF : p.length + 2 ≤ F) :
    BodyPart.read F (freshBP bnd) false (lineJoin p ++ serializeParts bnd ps')
      = .ok (lineJoin p, doneBP bnd (headDelim bnd ps'),
             tailAfterDelim bnd ps') := by
  simp only [BodyPart.read, freshBP, Bool.false_eq_true, if_false]
  rw [show (⟨[], bnd, false, none, 0, []⟩ : BodyPart) = freshBP bnd from rfl,
    readAllLines_fresh hwb p F [] ps' hwp hF]
  rfl

/-- `BodyPartReader.release()` of a fresh line-bounded part, from any point
of its payload: the stream is left exactly after the following boundary line,
which is retained in `_unread`.  Because `readline` on payload lines leaves
the part state unchanged, this single statement covers every partial
consumption point of the part. -/
theorem release_fresh {bnd : Bytes} (hwb : wfBnd bnd) (p : List Bytes)
    (F : Nat) (ps' : List (List Bytes)) (hwp : wfPart bnd p)
    (hF : p.length + 2 ≤ F) :
    BodyPart.release F (freshBP bnd) (lineJoin p ++ serializeParts bnd ps')
      = .ok (doneBP bnd (headDelim bnd ps'), tailAfterDelim bnd ps') := by
  simp only [BodyPart.release, freshBP, Bool.false_eq_true, if_false]
  rw [show (⟨[], bnd, false, none, 0, []⟩ : BodyPart) = freshBP bnd from rfl,
    readAllLines_fresh hwb p F [] ps' hwp hF]

/-! ## `BodyPartReader` length-mode lemmas -/

/-- The `read_chunk` loop of a length-bounded part with `k` bytes remaining:
it requests exactly `k` further bytes (whatever the stream can deliver),
drives `_read_bytes` to the declared length and sets `_at_eof`. -/
theorem readAllChunks_spec {L : Nat} :
    ∀ (k F : Nat) (bp : BodyPart) (s acc : Bytes),
    bp.length = some L → bp.at_eof = false → bp.read_bytes + k = L →
    k + 2 ≤ F →
    BodyPart.readAllChunks F bp s acc
      = .ok (acc ++ s.take k,
             { bp with read_bytes := L, at_eof := true }, s.drop k) := by
  intro k
  induction k using Nat.strong_induction_on with
  | _ k ih =>
    intro F bp s acc hlen heof hsum hF
    obtain ⟨f, rfl⟩ : ∃ f, F = f + 1 := ⟨F - 1, by omega⟩
    simp only [BodyPart.readAllChunks, heof, Bool.false_eq_true, if_false]
    simp only [BodyPart.read_chunk, heof, Bool.false_eq_true, if_false, hlen]
    have hrem : L - bp.read_bytes = k := by omega
    rw [hrem]
    rcases Nat.eq_zero_or_pos k with hk0 | hkpos
    · subst hk0
      have hrb : bp.read_bytes = L := by omega
      simp only [Nat.min_zero, Nat.add_zero, List.take_zero, List.drop_zero, hrb]
      rw [show (L == L) = true by simp]
      obtain ⟨g, rfl⟩ : ∃ g, f = g + 1 := ⟨f - 1, by omega⟩
      simp [BodyPart.readAllChunks]
    · set c := min BodyPart.chunk_size k with hc
      have hcpos : 1 ≤ c := by
        have h8 : 1 ≤ BodyPart.chunk_size := by decide
        omega
      have hcle : c ≤ k := Nat.min_le_right _ _
      by_cases hfin : bp.read_bytes + c = L
      · have hck : c = k := by omega
        rw [show (bp.read_bytes + c == L) = true by simp [hfin]]
        obtain ⟨g, rfl⟩ : ∃ g, f = g + 1 := ⟨f - 1, by omega⟩
        rw [hck] at hfin
        rw [hck]
        show BodyPart.readAllChunks (g + 1)
          { bp with read_bytes := bp.read_bytes + k, at_eof := true, length := some L }
          (s.drop k) (acc ++ s.take k) = _
        simp [BodyPart.readAllChunks, hfin]
      · rw [show (bp.read_bytes + c == L) = false by simp [hfin]]
        have hrec := ih (k - c) (by omega) f
          { bp with read_bytes := bp.read_bytes + c, at_eof := false }
          (s.drop c) (acc ++ s.take c) hlen rfl (by simp; omega) (by omega)
        rw [hlen] at hrec
        show BodyPart.readAllChunks f
          { bp with read_bytes := bp.read_bytes + c, at_eof := false, length := some L }
          (s.drop c) (acc ++ s.take c) = _
        rw [hrec]
        have hck : c + (k - c) = k := by omega
        have htake : s.take k = s.take c ++ (s.drop c).take (k - c) := by
          have ht := List.take_add s c (k - c)
          rw [hck] at ht
          exact ht
        have hdrop : (s.drop c).drop (k - c) = s.drop k := by
          rw [List.drop_drop, hck]
        rw [htake, hdrop, List.append_assoc]

/-- `read()` of a length-bounded part over a stream whose first `L` bytes are
the payload, followed by the CRLF terminator: the payload is returned, the
counter reaches the declared length, `_at_eof` is set, and the terminator is
consumed. -/
theorem read_length_ok {L : Nat} {bp : BodyPart} (hlen : bp.length = some L)
    (heof : bp.at_eof = false) (hrb : bp.read_bytes = 0)
    (payload rest : Bytes) (hpl : payload.length = L) (F : Nat)
    (hF : L + 2 ≤ F) :
    BodyPart.read F bp false (payload ++ crlf ++ rest)
      = .ok (payload, { bp with read_bytes := L, at_eof := true }, rest) := by
  have hs : payload ++ crlf ++ rest = payload ++ (crlf ++ rest) := by simp
  have htake : (payload ++ (crlf ++ rest)).take L = payload := by
    rw [← hpl]; exact List.take_left payload _
  have hdrop : (payload ++ (crlf ++ rest)).drop L = crlf ++ rest := by
    rw [← hpl]; exact List.drop_left payload _
  have hcr : streamReadline (crlf ++ rest) = (crlf, rest) := by
    have h1 : crlf ++ rest = ['\r'] ++ '\n' :: rest := by simp [crlf]
    rw [h1, streamReadline_line (by simp)]
    simp [crlf]
  simp only [BodyPart.read, heof, Bool.false_eq_true, if_false, hlen]
  rw [hs, readAllChunks_spec L F bp _ [] hlen heof (by omega) hF, htake, hdrop]
  dsimp only
  rw [hcr]
  simp [hlen]

/-- `read(decode=True)` of a length-bounded part: as `read_length_ok`, then
the payload is piped through `decode`. -/
theorem read_length_decode {L : Nat} {bp : BodyPart} (hlen : bp.length = some L)
    (heof : bp.at_eof = false) (hrb : bp.read_bytes = 0)
    (payload rest : Bytes) (hpl : payload.length = L) (F : Nat)
    (hF : L + 2 ≤ F) {out : Bytes}
    (hdec : BodyPart.decode { bp with read_bytes := L, at_eof := true } payload
      = .ok out) :
    BodyPart.read F bp true (payload ++ crlf ++ rest)
      = .ok (out, { bp with read_bytes := L, at_eof := true }, rest) := by
  have hs : payload ++ crlf ++ rest = payload ++ (crlf ++ rest) := by simp
  have htake : (payload ++ (crlf ++ rest)).take L = payload := by
    rw [← hpl]; exact List.take_left payload _
  have hdrop : (payload ++ (crlf ++ rest)).drop L = crlf ++ rest := by
    rw [← hpl]; exact List.drop_left payload _
  have hcr : streamReadline (crlf ++ rest) = (crlf, rest) := by
    have h1 : crlf ++ rest = ['\r'] ++ '\n' :: rest := by simp [crlf]
    rw [h1, streamReadline_line (by simp)]
    simp [crlf]
  simp only [BodyPart.read, heof, Bool.false_eq_true, if_false, hlen]
  rw [hs, readAllChunks_spec L F bp _ [] hlen heof (by omega) hF, htake, hdrop]
  dsimp only
  rw [hcr, hlen]
  rw [hlen] at hdec
  simp [hdec]

/-- `read()` of a length-bounded part over a stream where the line following
the declared length is NOT exactly the CRLF terminator: the `assert` fires
(the declared length and the actual stream contents disagree). -/
theorem read_length_err {L : Nat} {bp : BodyPart} (hlen : bp.length = some L)
    (heof : bp.at_eof = false) (hrb : bp.read_bytes = 0)
    (s : Bytes) (dec : Bool) (F : Nat) (hF : L + 2 ≤ F)
    (hterm : (streamReadline (s.drop L)).1 ≠ crlf) :
    BodyPart.read F bp dec s
      = .error (.assertionError
          "reader did not read all the data or it is malformed") := by
  simp only [BodyPart.read, heof, Bool.false_eq_true, if_false, hlen]
  rw [readAllChunks_spec L F bp s [] hlen heof (by omega) hF]
  dsimp only
  rcases hsr : streamReadline (s.drop L) with ⟨l, s2⟩
  have hl : ¬ l = crlf := by rw [hsr] at hterm; exact hterm
  dsimp only
  rw [if_neg hl]

/-! ## `MultipartReader` lemmas -/

/-- `_readline` with an empty pushback buffer reads from the stream. -/
theorem mreadline_empty (h : Headers) (b : Bytes) (e : Bool)
    (lp : Option MPart) (s : Bytes) :
    MReader.mreadline (.multi h b e lp []) s
      = ((streamReadline s).1, .multi h b e lp [], (streamReadline s).2) := by
  simp [MReader.mreadline]

/-- `_readline` with a pushed-back line pops it without touching the stream. -/
theorem mreadline_pop (h : Headers) (b : Bytes) (e : Bool)
    (lp : Option MPart) (d : Bytes) (s : Bytes) :
    MReader.mreadline (.multi h b e lp [d]) s = (d, .multi h b e lp [], s) := by
  simp [MReader.mreadline]

/-- `_read_boundary` when the stripped line equals the boundary. -/
theorem readBoundary_delim {r : MReader} {s : Bytes} {line : Bytes}
    {r' : MReader} {s' : Bytes}
    (hmr : MReader.mreadline r s = (line, r', s'))
    (hline : rstripWS line = r'.boundary) :
    MReader.readBoundary r s = .ok (r', s') := by
  unfold MReader.readBoundary
  rw [hmr]
  simp [hline]

/-- `_read_boundary` when the stripped line equals the terminator. -/
theorem readBoundary_term {r : MReader} {s : Bytes} {line : Bytes}
    {r' : MReader} {s' : Bytes}
    (hmr : MReader.mreadline r s = (line, r', s'))
    (hline : rstripWS line = r'.boundary ++ dd) :
    MReader.readBoundary r s = .ok (r'.withEof, s') := by
  unfold MReader.readBoundary
  rw [hmr]
  simp only [hline]
  rw [if_neg append_dd_ne_self]
  simp

/-- `_read_boundary` when the stripped line matches neither token: the
`ValueError` is raised. -/
theorem readBoundary_bad {r : MReader} {s : Bytes} {line : Bytes}
    {r' : MReader} {s' : Bytes}
    (hmr : MReader.mreadline r s = (line, r', s'))
    (h1 : rstripWS line ≠ r'.boundary)
    (h2 : rstripWS line ≠ r'.boundary ++ dd) :
    MReader.readBoundary r s = .error (.valueError (rstripWS line) r'.boundary) := by
  unfold MReader.readBoundary
  rw [hmr]
  simp [h1, h2]

/-- `_read_headers` on an empty header block (just the blank CRLF line). -/
theorem readHeaders_empty (F : Nat) (hF : 1 ≤ F) (rest : Bytes) :
    readHeaders F (crlf ++ rest) = .ok ([], rest) := by
  obtain ⟨f, rfl⟩ : ∃ f, F = f + 1 := ⟨F - 1, by omega⟩
  have hcr : streamReadline (crlf ++ rest) = (crlf, rest) := by
    have h1 : crlf ++ rest = ['\r'] ++ '\n' :: rest := by simp [crlf]
    rw [h1, streamReadline_line (by simp)]
    simp [crlf]
  have hstrip : stripWS crlf = [] := by decide
  simp [readHeaders, readHeaderLines, hcr, hstrip, parseHeaderLines]

/-- `_get_part_reader` with an empty header mapping: no Content-Type, hence a
line-bounded `BodyPartReader` carrying the parent's boundary token. -/
theorem getPartReader_empty (r : MReader) :
    r.getPartReader [] = .ok (.body ⟨[], r.boundary, false, none, 0, []⟩) := by
  show (if mimeMtype (((Headers.get ([] : Headers) CONTENT_TYPE)).getD [])
        = bs "multipart" then MReader.init []
      else
        match BodyPart.init r.boundary [] with
        | .error e => .error e
        | .ok bp => .ok (.body bp)) = _
  rw [if_neg (by decide :
    ¬ mimeMtype (((Headers.get ([] : Headers) CONTENT_TYPE)).getD [])
      = bs "multipart")]
  rfl

/-- `fetch_next_part` over an empty header block. -/
theorem fetchNextPart_empty (r : MReader) (F : Nat) (hF : 1 ≤ F)
    (rest : Bytes) :
    MReader.fetchNextPart F r (crlf ++ rest)
      = .ok (.body ⟨[], r.boundary, false, none, 0, []⟩, rest) := by
  simp [MReader.fetchNextPart, readHeaders_empty F hF rest, getPartReader_empty]

/-- `next()` at a loop-invariant state of the flat-body protocol: the reader
is not at eof, its pushback is empty, and either no part has been yielded yet
(the serialized remainder starts at the stream head) or the previous part is
fully drained and holds the pending boundary line in its `_unread` buffer.
`next()` yields the terminator outcome or a fresh line-bounded part. -/
theorem nextPre {bnd : Bytes} (hwb : wfBnd bnd) (hdrs : Headers)
    (ps : List (List Bytes)) (lp : Option MPart) (s : Bytes) (g : Nat)
    (hstate : (lp = none ∧ s = serializeParts bnd ps)
      ∨ (lp = some (.body (doneBP bnd (headDelim bnd ps)))
         ∧ s = tailAfterDelim bnd ps)) :
    MReader.next (g + 2) (.multi hdrs bnd false lp []) s
      = match ps with
        | [] => .ok (none, .multi hdrs bnd true none [], [])
        | p :: ps' => .ok (some (.body (freshBP bnd)),
            .multi hdrs bnd false (some (.body (freshBP bnd))) [],
            lineJoin p ++ serializeParts bnd ps') := by
  have hrws_delim : rstripWS (bnd ++ crlf) = bnd := by
    rw [rstripWS_append_crlf]; exact hwb.2.2
  have hrws_term : rstripWS (bnd ++ dd ++ crlf) = bnd ++ dd := by
    rw [rstripWS_append_crlf, rstripWS_dd_concat]
  rcases hstate with ⟨rfl, rfl⟩ | ⟨rfl, rfl⟩
  · cases ps with
    | nil =>
      have hsr : streamReadline (serializeParts bnd []) = (bnd ++ dd ++ crlf, []) := by
        have h1 : serializeParts bnd [] = (bnd ++ dd ++ ['\r']) ++ '\n' :: [] := by
          simp [serializeParts, crlf]
        rw [h1, streamReadline_line (by
          intro hm
          rcases List.mem_append.mp hm with hm | hm
          · rcases List.mem_append.mp hm with hm | hm
            · exact hwb.2.1 hm
            · simp [dd] at hm
          · simp at hm)]
        simp [crlf]
      have h1 : MReader.maybeReleaseLastPart (g + 1)
          (.multi hdrs bnd false none []) (serializeParts bnd [])
          = .ok (.multi hdrs bnd false none [], serializeParts bnd []) := rfl
      have h2 : MReader.readBoundary (.multi hdrs bnd false none [])
          (serializeParts bnd [])
          = .ok (.multi hdrs bnd true none [], []) := by
        refine @readBoundary_term (MPart.multi hdrs bnd false none [])
          (serializeParts bnd []) (bnd ++ dd ++ crlf)
          (MPart.multi hdrs bnd false none []) [] ?_ ?_
        · rw [mreadline_empty, hsr]
        · exact (show rstripWS (bnd ++ dd ++ crlf)
            = MReader.boundary (MPart.multi hdrs bnd false none []) ++ dd
            from hrws_term)
      simp only [MReader.next, MReader.at_eof, MPart.at_eof, Bool.false_eq_true,
        if_false, h1, h2]
      simp
    | cons p ps' =>
      have hsr : streamReadline (serializeParts bnd (p :: ps'))
          = (bnd ++ crlf, crlf ++ (lineJoin p ++ serializeParts bnd ps')) := by
        have h1 : serializeParts bnd (p :: ps')
            = (bnd ++ ['\r']) ++ '\n' :: (crlf ++ (lineJoin p ++ serializeParts bnd ps')) := by
          simp [serializeParts, crlf]
        rw [h1, streamReadline_line (by
          intro hm
          rcases List.mem_append.mp hm with hm | hm
          · exact hwb.2.1 hm
          · simp at hm)]
        simp [crlf]
      have h1 : MReader.maybeReleaseLastPart (g + 1)
          (.multi hdrs bnd false none []) (serializeParts bnd (p :: ps'))
          = .ok (.multi hdrs bnd false none [], serializeParts bnd (p :: ps')) := rfl
      have h2 : MReader.readBoundary (.multi hdrs bnd false none [])
          (serializeParts bnd (p :: ps'))
          = .ok (.multi hdrs bnd false none [],
                 crlf ++ (lineJoin p ++ serializeParts bnd ps')) := by
        refine @readBoundary_delim (MPart.multi hdrs bnd false none [])
          (serializeParts bnd (p :: ps')) (bnd ++ crlf)
          (MPart.multi hdrs bnd false none [])
          (crlf ++ (lineJoin p ++ serializeParts bnd ps')) ?_ ?_
        · rw [mreadline_empty, hsr]
        · exact (show rstripWS (bnd ++ crlf)
            = MReader.boundary (MPart.multi hdrs bnd false none [])
            from hrws_delim)
      have h3 := fetchNextPart_empty (.multi hdrs bnd false none []) (g + 1)
        (by omega) (lineJoin p ++ serializeParts bnd ps')
      simp only [MReader.next, MReader.at_eof, MPart.at_eof, Bool.false_eq_true,
        if_false, h1, h2, h3]
      simp [MReader.setLastPart, freshBP, MReader.boundary]
  · cases ps with
    | nil =>
      have h1 : MReader.maybeReleaseLastPart (g + 1)
          (.multi hdrs bnd false (some (.body (doneBP bnd (headDelim bnd [])))) [])
          (tailAfterDelim bnd [])
          = .ok (.multi hdrs bnd false none [headDelim bnd []],
                 tailAfterDelim bnd []) := rfl
      have h2 : MReader.readBoundary
          (.multi hdrs bnd false none [headDelim bnd []]) (tailAfterDelim bnd [])
          = .ok (.multi hdrs bnd true none [], tailAfterDelim bnd []) := by
        refine readBoundary_term (mreadline_pop hdrs bnd false none _ _) ?_
        exact (show rstripWS (headDelim bnd ([] : List (List Bytes)))
          = MReader.boundary (MPart.multi hdrs bnd false none []) ++ dd
          from hrws_term)
      simp only [MReader.next, MReader.at_eof, MPart.at_eof, Bool.false_eq_true,
        if_false, h1, h2]
      simp [tailAfterDelim]
    | cons p ps' =>
      have h1 : MReader.maybeReleaseLastPart (g + 1)
          (.multi hdrs bnd false
            (some (.body (doneBP bnd (headDelim bnd (p :: ps'))))) [])
          (tailAfterDelim bnd (p :: ps'))
          = .ok (.multi hdrs bnd false none [headDelim bnd (p :: ps')],
                 tailAfterDelim bnd (p :: ps')) := rfl
      have h2 : MReader.readBoundary
          (.multi hdrs bnd false none [headDelim bnd (p :: ps')])
          (tailAfterDelim bnd (p :: ps'))
          = .ok (.multi hdrs bnd false none [], tailAfterDelim bnd (p :: ps')) := by
        refine readBoundary_delim (mreadline_pop hdrs bnd false none _ _) ?_
        exact (show rstripWS (headDelim bnd (p :: ps'))
          = MReader.boundary (MPart.multi hdrs bnd false none [])
          from hrws_delim)
      have h3 : MReader.fetchNextPart (g + 1) (.multi hdrs bnd false none [])
          (tailAfterDelim bnd (p :: ps'))
          = .ok (.body (freshBP bnd), lineJoin p ++ serializeParts bnd ps') := by
        rw [show tailAfterDelim bnd (p :: ps')
          = crlf ++ (lineJoin p ++ serializeParts bnd ps') from rfl]
        exact fetchNextPart_empty _ _ (by omega) _
      simp only [MReader.next, MReader.at_eof, MPart.at_eof, Bool.false_eq_true,
        if_false, h1, h2, h3]
      simp [MReader.setLastPart, freshBP, MReader.boundary]

/-- The main loop invariant of `next()`-driven consumption of a well-formed
flat multipart body: from either the initial state or the drained-previous-
part state, driving the remaining parts yields exactly their payloads and
ends with the reader at eof and the stream exhausted. -/
theorem driveAll_loop {bnd : Bytes} (hwb : wfBnd bnd) (hdrs : Headers) :
    ∀ (ps : List (List Bytes)) (lp : Option MPart) (s : Bytes)
      (F : Nat) (acc : List Bytes),
    (∀ p ∈ ps, wfPart bnd p) → fuelFor ps ≤ F →
    ((lp = none ∧ s = serializeParts bnd ps)
      ∨ (lp = some (.body (doneBP bnd (headDelim bnd ps)))
         ∧ s = tailAfterDelim bnd ps)) →
    MReader.driveAll F (.multi hdrs bnd false lp []) s acc
      = .ok (acc.reverse ++ ps.map lineJoin, .multi hdrs bnd true none [], []) := by
  intro ps
  induction ps with
  | nil =>
    intro lp s F acc hwf hF hstate
    have hF3 : 3 ≤ F := by simpa [fuelFor] using hF
    obtain ⟨g, rfl⟩ : ∃ g, F = g + 3 := ⟨F - 3, by omega⟩
    have hnext := nextPre hwb hdrs [] lp s g hstate
    simp only [MReader.driveAll, hnext]
    simp
  | cons p ps' ih =>
    intro lp s F acc hwf hF hstate
    have hsum : ((p :: ps').map List.length).sum
        = p.length + (ps'.map List.length).sum := by simp
    have hF5 : 5 ≤ F := by
      simp only [fuelFor, hsum, List.length_cons] at hF
      omega
    obtain ⟨g, rfl⟩ : ∃ g, F = g + 3 := ⟨F - 3, by omega⟩
    have hnext := nextPre hwb hdrs (p :: ps') lp s g hstate
    have hread := read_fresh hwb p (g + 2) ps' (hwf p (by simp))
      (by
        simp only [fuelFor, hsum, List.length_cons] at hF
        omega)
    simp only [MReader.driveAll, hnext]
    show (match BodyPart.read (g + 2) (freshBP bnd) false
        (lineJoin p ++ serializeParts bnd ps') with
      | .error e => Except.error e
      | .ok (data, bp', s₂) =>
        MReader.driveAll (g + 2)
          (MReader.setLastPart
            (.multi hdrs bnd false (some (.body (freshBP bnd))) [])
            (some (.body bp'))) s₂ (data :: acc)) = _
    rw [hread]
    show MReader.driveAll (g + 2)
        (.multi hdrs bnd false (some (.body (doneBP bnd (headDelim bnd ps')))) [])
        (tailAfterDelim bnd ps') (lineJoin p :: acc) = _
    rw [ih (some (.body (doneBP bnd (headDelim bnd ps'))))
      (tailAfterDelim bnd ps') (g + 2) (lineJoin p :: acc)
      (fun q hq => hwf q (by simp [hq]))
      (by
        simp only [fuelFor, hsum, List.length_cons] at hF ⊢
        omega)
      (Or.inr ⟨rfl, rfl⟩)]
    simp

/-! ## Claim C1 -/

/-- C1: for every well-formed flat multipart body with parts `P1..Pn`
(arbitrary boundary token and arbitrary payload line lists), successive
`next()` calls yield exactly `P1..Pn` in order — each yielded part's `read()`
returning exactly the bytes between its header block and the following
boundary line — followed by the end-of-body signal: `next()` yields no part,
the reader's `at_eof` flag is `true`, and the stream is fully consumed. -/
theorem claim_C1 (bnd : Bytes) (hdrs : Headers) (parts : List (List Bytes))
    (hwb : wfBnd bnd) (hwf : ∀ p ∈ parts, wfPart bnd p) :
    MReader.driveAll (fuelFor parts) (.multi hdrs bnd false none [])
      (serializeParts bnd parts) []
      = .ok (parts.map lineJoin, .multi hdrs bnd true none [], []) :=
  driveAll_loop hwb hdrs parts none (serializeParts bnd parts)
    (fuelFor parts) [] hwf (le_refl _) (Or.inl ⟨rfl, rfl⟩)

/-- Witness for C1 at a concrete two-part body. -/
theorem claim_C1_witness :
    MReader.driveAll (fuelFor c1Parts) (.multi [] c1Bnd false none [])
      (serializeParts c1Bnd c1Parts) []
      = .ok (c1Parts.map lineJoin, .multi [] c1Bnd true none [], []) :=
  claim_C1 c1Bnd [] c1Parts (by decide) (by decide)

/-! ## Claim C2 -/

/-- `_readline` preserves the reader's boundary token. -/
theorem mreadline_boundary_eq (r : MReader) (s : Bytes) :
    (MReader.mreadline r s).2.1.boundary = r.boundary := by
  cases r with
  | body bp => rfl
  | multi h b e p u =>
    cases hu : u.getLast? <;> simp [MReader.mreadline, hu, MReader.boundary]

/-- C2: (1) `next()` on a reader whose previous part is not fully read first
drains that part exactly as its `release` would, reclaims the drained part's
pushback lines onto the reader's own pushback buffer, and then proceeds
identically to a `next()` call on the post-drain state — so partial
consumption never leaks into the following part; (2) draining a fresh
line-bounded part from any point of its payload leaves the stream positioned
exactly after the boundary line that follows the part, with that raw boundary
line retained in the part's pushback buffer. -/
theorem claim_C2 :
    (∀ (hdrs : Headers) (bnd : Bytes) (lp : MPart) (u : List Bytes)
       (s s' : Bytes) (p' : MPart) (g : Nat),
      MPart.at_eof lp = false →
      MPart.releasePart g lp s = .ok (p', s') →
      MReader.next (g + 2) (.multi hdrs bnd false (some lp) u) s
        = MReader.next (g + 2) (.multi hdrs bnd false none (u ++ p'.unread)) s')
    ∧ (∀ (bnd : Bytes) (p : List Bytes) (ps' : List (List Bytes)) (F : Nat),
      wfBnd bnd → wfPart bnd p → p.length + 2 ≤ F →
      BodyPart.release F (freshBP bnd) (lineJoin p ++ serializeParts bnd ps')
        = .ok (doneBP bnd (headDelim bnd ps'), tailAfterDelim bnd ps')) := by
  constructor
  · intro hdrs bnd lp u s s' p' g heof hrel
    have h1 : MReader.maybeReleaseLastPart (g + 1)
        (.multi hdrs bnd false (some lp) u) s
        = .ok (.multi hdrs bnd false none (u ++ p'.unread), s') := by
      simp only [MReader.maybeReleaseLastPart, heof, Bool.false_eq_true,
        if_false, hrel]
    have h2 : MReader.maybeReleaseLastPart (g + 1)
        (.multi hdrs bnd false none (u ++ p'.unread)) s' = .ok
        (.multi hdrs bnd false none (u ++ p'.unread), s') := rfl
    simp only [MReader.next, MReader.at_eof, MPart.at_eof, Bool.false_eq_true,
      if_false, h1, h2]
  · intro bnd p ps' F hwb hwp hF
    exact release_fresh hwb p F ps' hwp hF

/-- Witness for C2: abandoning part 1 unread, `next()` behaves exactly as
after a full drain; and the drain itself lands on the following boundary. -/
theorem claim_C2_witness :
    (MReader.next 7 (.multi [] c1Bnd false (some c2Fresh) []) c2Stream
      = MReader.next 7 (.multi [] c1Bnd false none ([] ++ MPart.unread c2Done))
          c2Tail)
    ∧ BodyPart.release 4 (freshBP c1Bnd)
        (lineJoin [bs "hello\r"] ++ serializeParts c1Bnd [[bs "world\r"]])
      = .ok (doneBP c1Bnd (headDelim c1Bnd [[bs "world\r"]]),
             tailAfterDelim c1Bnd [[bs "world\r"]]) :=
  ⟨claim_C2.1 [] c1Bnd c2Fresh [] c2Stream c2Tail c2Done 5 rfl (by rfl),
   claim_C2.2 c1Bnd [bs "hello\r"] [[bs "world\r"]] 4 (by decide) (by decide)
     (by decide)⟩

/-! ## Claim C3 -/

/-- C3 as stated is false: `_read_boundary` strips ALL trailing whitespace
(Python `rstrip()`), not just the line terminator, so the line
`b"--XBOUND \r\n"` — whose terminator-stripped form `b"--XBOUND "` equals
neither the boundary nor the terminator token — is silently accepted as a
valid delimiter instead of raising. -/
theorem claim_C3_counterexample :
    MReader.readBoundary (.multi [] (bs "--XBOUND") false none [])
        (bs "--XBOUND \r\nrest")
      = .ok (.multi [] (bs "--XBOUND") false none [], bs "rest")
    ∧ rstripCRLF (bs "--XBOUND \r\n") ≠ bs "--XBOUND"
    ∧ rstripCRLF (bs "--XBOUND \r\n") ≠ bs "--XBOUND" ++ dd := by
  refine ⟨rfl, by decide, by decide⟩

/-- C3 (amended): whenever `next()` reads a line where a boundary is
expected and that line with ALL trailing whitespace stripped (Python
`rstrip()`) equals neither the boundary token nor the boundary token with
`--` appended, the fatal `ValueError` is raised — such a line is never
silently tolerated or skipped. -/
theorem claim_C3 (r : MReader) (s line : Bytes) (r' : MReader) (s' : Bytes)
    (hmr : MReader.mreadline r s = (line, r', s'))
    (h1 : rstripWS line ≠ r.boundary)
    (h2 : rstripWS line ≠ r.boundary ++ dd) :
    MReader.readBoundary r s = .error (.valueError (rstripWS line) r.boundary) := by
  have hb : r'.boundary = r.boundary := by
    have := mreadline_boundary_eq r s
    rw [hmr] at this
    exact this
  rw [← hb] at h1 h2 ⊢
  exact readBoundary_bad hmr h1 h2

/-- Witness for C3 (amended) at the spec's corrupted-boundary scenario. -/
theorem claim_C3_witness :
    MReader.readBoundary (.multi [] (bs "--XBOUND") false none [])
        (bs "--WRONG\r\nrest")
      = .error (.valueError (rstripWS (bs "--WRONG\r\n")) (bs "--XBOUND")) :=
  claim_C3 (.multi [] (bs "--XBOUND") false none []) (bs "--WRONG\r\nrest")
    (bs "--WRONG\r\n") (.multi [] (bs "--XBOUND") false none []) (bs "rest")
    (by rfl) (by decide) (by decide)

/-! ## Claim C5 -/

/-- C5: for a line-bounded part, `readline()` (1) on a physical line whose
`rstrip(b"\r\n")` form equals the boundary delimiter or terminator returns an
empty result, sets `_at_eof`, and retains the raw (unstripped) line on the
`_unread` pushback stack, without re-reading the stream; (2) on any other
physical line returns that line unchanged. -/
theorem claim_C5 :
    (∀ (bp : BodyPart) (s line s2 : Bytes),
      bp.at_eof = false → bp.length = none →
      streamReadline s = (line, s2) →
      (rstripCRLF line = bp.boundary ∨ rstripCRLF line = bp.boundary ++ dd) →
      bp.readline s
        = .ok ([], { bp with at_eof := true, unread := bp.unread ++ [line] }, s2))
    ∧ (∀ (bp : BodyPart) (s line s2 : Bytes),
      bp.at_eof = false → bp.length = none →
      streamReadline s = (line, s2) →
      rstripCRLF line ≠ bp.boundary → rstripCRLF line ≠ bp.boundary ++ dd →
      bp.readline s = .ok (line, bp, s2)) := by
  constructor
  · intro bp s line s2 heof _ hsr hline
    have hpre : bp.boundary.isPrefixOf line = true := by
      rw [List.isPrefixOf_iff_prefix]
      obtain ⟨suf, hdec, -⟩ := rstripSet_decomp ['\r', '\n'] line
      rcases hline with hl | hl
      · rw [rstripCRLF] at hl
        rw [hdec, hl]
        exact List.prefix_append _ _
      · rw [rstripCRLF] at hl
        rw [hdec, hl, List.append_assoc]
        exact List.prefix_append _ _
    simp only [BodyPart.readline, heof, Bool.false_eq_true, if_false, hsr]
    rw [if_pos hpre, if_pos hline]
  · intro bp s line s2 heof _ hsr h1 h2
    simp only [BodyPart.readline, heof, Bool.false_eq_true, if_false, hsr]
    by_cases hpre : bp.boundary.isPrefixOf line = true
    · rw [if_pos hpre, if_neg (by push_neg; exact ⟨h1, h2⟩)]
    · rw [if_neg hpre]

/-- Witness for C5: the terminator line ends the part and is pushed back raw;
an ordinary line passes through unchanged. -/
theorem claim_C5_witness :
    (BodyPart.readline c5BP (bs "--b--\r\ntail")
      = .ok ([],
          { c5BP with at_eof := true, unread := c5BP.unread ++ [bs "--b--\r\n"] },
          bs "tail"))
    ∧ (BodyPart.readline c5BP (bs "data\r\ntail")
      = .ok (bs "data\r\n", c5BP, bs "tail")) :=
  ⟨claim_C5.1 c5BP (bs "--b--\r\ntail") (bs "--b--\r\n") (bs "tail")
      rfl rfl (by rfl) (by right; decide),
   claim_C5.2 c5BP (bs "data\r\ntail") (bs "data\r\n") (bs "tail")
      rfl rfl (by rfl) (by decide) (by decide)⟩

/-! ## Claim C4 -/

theorem applyChunks_eof {bp : BodyPart} (heof : bp.at_eof = true) :
    ∀ (sizes : List Nat) (s : Bytes), applyChunks sizes bp s = .ok (bp, s) := by
  intro sizes
  induction sizes with
  | nil => intro s; rfl
  | cons n t ih =>
    intro s
    simp only [applyChunks, BodyPart.read_chunk, heof, if_true, ih]

theorem applyChunks_spec {L : Nat} :
    ∀ (sizes : List Nat) (bp : BodyPart) (s : Bytes),
    bp.length = some L → bp.at_eof = false →
    bp.read_bytes + sizes.sum = L → sizes ≠ [] →
    applyChunks sizes bp s
      = .ok ({ bp with read_bytes := L, at_eof := true },
             s.drop (L - bp.read_bytes)) := by
  intro sizes
  induction sizes with
  | nil => intro bp s _ _ _ hne; exact absurd rfl hne
  | cons n t ih =>
    intro bp s hlen heof hsum _
    have hsum' : bp.read_bytes + n + t.sum = L := by
      simp only [List.sum_cons] at hsum
      omega
    have hc : min n (L - bp.read_bytes) = n := by omega
    simp only [applyChunks, BodyPart.read_chunk, heof, Bool.false_eq_true,
      if_false, hlen, hc]
    by_cases hfin : bp.read_bytes + n = L
    · rw [show (bp.read_bytes + n == L) = true by simp [hfin]]
      rw [applyChunks_eof rfl t (s.drop n)]
      have hn : n = L - bp.read_bytes := by omega
      rw [hfin, ← hn]
    · rw [show (bp.read_bytes + n == L) = false by simp [hfin]]
      have ht : t ≠ [] := by
        intro hte
        subst hte
        simp at hsum'
        omega
      rw [ih
        { bp with read_bytes := bp.read_bytes + n, at_eof := false, length := some L }
        (s.drop n) rfl rfl (by simpa using hsum') ht]
      rw [List.drop_drop]
      have : n + (L - (bp.read_bytes + n)) = L - bp.read_bytes := by omega
      rw [this]

/-- C4: for a length-bounded part, (1) any caller-driven sequence of
`read_chunk` calls whose sizes sum to exactly the declared length sets
`_at_eof` and leaves the stream advanced by exactly that length; (2) when the
`read()` loop finishes the declared length and exactly one CRLF terminator
follows on the stream, it is consumed and the payload returned; (3) when the
line following the declared length is not exactly the CRLF terminator, the
fatal assertion fires (the `assert` lives in `read`/`release`, which perform
it right after their chunk loop reaches `at_eof`). -/
theorem claim_C4 :
    (∀ (sizes : List Nat) (L : Nat) (bp : BodyPart) (s : Bytes),
      bp.length = some L → bp.at_eof = false → bp.read_bytes = 0 →
      sizes.sum = L → sizes ≠ [] →
      applyChunks sizes bp s
        = .ok ({ bp with read_bytes := L, at_eof := true }, s.drop L))
    ∧ (∀ (L : Nat) (bp : BodyPart) (payload rest : Bytes) (F : Nat),
      bp.length = some L → bp.at_eof = false → bp.read_bytes = 0 →
      payload.length = L → L + 2 ≤ F →
      BodyPart.read F bp false (payload ++ crlf ++ rest)
        = .ok (payload, { bp with read_bytes := L, at_eof := true }, rest))
    ∧ (∀ (L : Nat) (bp : BodyPart) (s : Bytes) (F : Nat),
      bp.length = some L → bp.at_eof = false → bp.read_bytes = 0 →
      L + 2 ≤ F → (streamReadline (s.drop L)).1 ≠ crlf →
      BodyPart.read F bp false s
        = .error (.assertionError
            "reader did not read all the data or it is malformed")) := by
  refine ⟨?_, ?_, ?_⟩
  · intro sizes L bp s hlen heof hrb hsum hne
    have := applyChunks_spec sizes bp s hlen heof (by omega) hne
    rw [hrb] at this
    simpa using this
  · intro L bp payload rest F hlen heof hrb hpl hF
    exact read_length_ok hlen heof hrb payload rest hpl F hF
  · intro L bp s F hlen heof hrb hF hterm
    exact read_length_err hlen heof hrb s false F hF hterm

/-- Witness for C4: chunk sizes `[3, 2]` summing to the declared five bytes
set `at_eof`; `read()` over `b"hello\r\nX"` succeeds consuming the
terminator; `read()` over `b"hello!!!"` raises the assertion. -/
theorem claim_C4_witness :
    (applyChunks [3, 2] c4BP (bs "hello\r\nX")
      = .ok ({ c4BP with read_bytes := 5, at_eof := true }, bs "\r\nX"))
    ∧ (BodyPart.read 7 c4BP false (bs "hello" ++ crlf ++ bs "X")
      = .ok (bs "hello", { c4BP with read_bytes := 5, at_eof := true }, bs "X"))
    ∧ (BodyPart.read 7 c4BP false (bs "hello!!!")
      = .error (.assertionError
          "reader did not read all the data or it is malformed")) :=
  ⟨by
    have h := claim_C4.1 [3, 2] 5 c4BP (bs "hello\r\nX") rfl rfl rfl
      (by decide) (by decide)
    simpa using h,
   claim_C4.2.1 5 c4BP (bs "hello") (bs "X") 7 rfl rfl rfl (by decide)
     (by decide),
   claim_C4.2.2 5 c4BP (bs "hello!!!") 7 rfl rfl rfl (by decide) (by decide)⟩

/-! ## Claim C10 -/

/-- C10: `read_chunk(size)` on a length-bounded part advances the
consumed-bytes counter by `min(size, remaining)` — the amount REQUESTED from
the stream — never by the number of bytes the stream actually delivered
(the returned chunk is whatever `take` yields); consequently (second
conjunct) when the request covers the remaining declared length but the
stream holds fewer bytes, `_at_eof` still becomes true and `_read_bytes`
still reaches the declared length. -/
theorem claim_C10 :
    (∀ (bp : BodyPart) (size : Nat) (s : Bytes) (L : Nat),
      bp.length = some L → bp.at_eof = false →
      bp.read_chunk size s
        = .ok (s.take (min size (L - bp.read_bytes)),
            { bp with
              read_bytes := bp.read_bytes + min size (L - bp.read_bytes),
              at_eof := bp.read_bytes + min size (L - bp.read_bytes) == L },
            s.drop (min size (L - bp.read_bytes))))
    ∧ (∀ (bp : BodyPart) (size : Nat) (s : Bytes) (L : Nat),
      bp.length = some L → bp.at_eof = false →
      L - bp.read_bytes ≤ size → s.length < L - bp.read_bytes →
      bp.read_chunk size s
        = .ok (s, { bp with read_bytes := L, at_eof := true }, [])) := by
  constructor
  · intro bp size s L hlen heof
    simp only [BodyPart.read_chunk, heof, Bool.false_eq_true, if_false, hlen]
  · intro bp size s L hlen heof hsize hshort
    have hc : min size (L - bp.read_bytes) = L - bp.read_bytes :=
      Nat.min_eq_right hsize
    have hrb : bp.read_bytes + (L - bp.read_bytes) = L := by omega
    simp only [BodyPart.read_chunk, heof, Bool.false_eq_true, if_false, hlen,
      hc, hrb]
    rw [List.take_of_length_le (by omega), List.drop_eq_nil_of_le (by omega)]
    simp

/-- Witness for C10: five declared bytes, but the stream holds only three —
the requested-size accounting still drives the counter to 5 and sets
`at_eof`, returning only the three available bytes. -/
theorem claim_C10_witness :
    (c4BP.read_chunk 8192 (bs "abc")
      = .ok (bs "abc", { c4BP with read_bytes := 5, at_eof := true }, []))
    ∧ (c4BP.read_chunk 3 (bs "hello!!")
      = .ok (bs "hel",
          { c4BP with read_bytes := 0 + min 3 (5 - 0), at_eof := 0 + min 3 (5 - 0) == 5 },
          bs "lo!!")) :=
  ⟨claim_C10.2 c4BP 8192 (bs "abc") 5 rfl rfl (by decide) (by decide),
   claim_C10.1 c4BP 3 (bs "hello!!") 5 rfl rfl⟩

/-! ## Claim C9 -/

/-- C9 as stated is false in its `readline` half: `readline()` performs no
mode check at all — on a length-bounded part (Content-Length present) it
simply reads and returns a line instead of failing. -/
theorem claim_C9_counterexample :
    BodyPart.readline c4BP (bs "hello\r\nrest")
      = .ok (bs "hello\r\n", c4BP, bs "rest")
    ∧ c4BP.length = some 5 := ⟨rfl, rfl⟩

/-- C9 (amended): `read_chunk` on a line-bounded part (no Content-Length)
that is not at eof fails with the fatal assertion; `readline`, by contrast,
is never mode-checked — on a length-bounded part it succeeds and behaves as
ordinary line reading. -/
theorem claim_C9 :
    (∀ (bp : BodyPart) (size : Nat) (s : Bytes),
      bp.length = none → bp.at_eof = false →
      bp.read_chunk size s
        = .error (.assertionError "Content-Length required for chunked read"))
    ∧ (∀ (bp : BodyPart) (s : Bytes) (L : Nat),
      bp.length = some L → ∃ v, bp.readline s = .ok v) := by
  constructor
  · intro bp size s hlen heof
    simp only [BodyPart.read_chunk, heof, Bool.false_eq_true, if_false, hlen]
  · intro bp s L _
    rcases hsr : streamReadline s with ⟨line, s2⟩
    unfold BodyPart.readline
    rw [hsr]
    by_cases heof : bp.at_eof = true
    · exact ⟨_, by rw [if_pos heof]⟩
    · rw [if_neg heof]
      dsimp only
      by_cases hpre : bp.boundary.isPrefixOf line = true
      · by_cases hb : rstripCRLF line = bp.boundary
          ∨ rstripCRLF line = bp.boundary ++ dd
        · exact ⟨_, by rw [if_pos hpre, if_pos hb]⟩
        · exact ⟨_, by rw [if_pos hpre, if_neg hb]⟩
      · exact ⟨_, by rw [if_neg hpre]⟩

/-- Witness for C9 (amended). -/
theorem claim_C9_witness :
    (c9LineBP.read_chunk 8192 (bs "hello")
      = .error (.assertionError "Content-Length required for chunked read"))
    ∧ (∃ v, c4BP.readline (bs "hello\r\nrest") = .ok v) :=
  ⟨claim_C9.1 c9LineBP 8192 (bs "hello") rfl rfl,
   claim_C9.2 c4BP (bs "hello\r\nrest") 5 rfl⟩

/-! ## Claim C7 -/

/-- C7 as stated is false: a PRESENT Content-Encoding header with an empty
value — a declared encoding that is neither absent, `gzip` nor `deflate` —
does not raise: Python's falsy test `if not encoding` passes it through
unchanged instead. -/
theorem claim_C7_counterexample :
    c7EmptyBP.decode (bs "abc") = .ok (bs "abc")
    ∧ Headers.get c7EmptyBP.headers CONTENT_ENCODING = some []
    ∧ ([] : Bytes) ≠ bs "gzip" ∧ ([] : Bytes) ≠ bs "deflate" :=
  ⟨rfl, rfl, by decide, by decide⟩

/-- C7 (amended): `decode` dispatches on the Content-Encoding value: with the
header absent OR present with an empty value the payload passes through
unchanged; `gzip` and `deflate` (raw deflate) dispatch to the corresponding
decompression routine; any other non-empty value raises the fatal
`AttributeError` of the `decode_<encoding>` attribute lookup — there is no
generic or no-op fallback. -/
theorem claim_C7 :
    (∀ (bp : BodyPart) (data : Bytes),
      bp.headers.get CONTENT_ENCODING = none → bp.decode data = .ok data)
    ∧ (∀ (bp : BodyPart) (data : Bytes),
      bp.headers.get CONTENT_ENCODING = some [] → bp.decode data = .ok data)
    ∧ (∀ (bp : BodyPart) (data : Bytes),
      bp.headers.get CONTENT_ENCODING = some (bs "gzip") →
      bp.decode data = BodyPart.decode_gzip data)
    ∧ (∀ (bp : BodyPart) (data : Bytes),
      bp.headers.get CONTENT_ENCODING = some (bs "deflate") →
      bp.decode data = BodyPart.decode_deflate data)
    ∧ (∀ (bp : BodyPart) (data enc : Bytes),
      bp.headers.get CONTENT_ENCODING = some enc →
      enc ≠ [] → enc ≠ bs "gzip" → enc ≠ bs "deflate" →
      bp.decode data = .error (.attributeError (bs "decode_" ++ enc))) := by
  refine ⟨?_, ?_, ?_, ?_, ?_⟩
  · intro bp data h
    simp only [BodyPart.decode, h]
  · intro bp data h
    simp [BodyPart.decode, h]
  · intro bp data h
    have e1 : (bs "gzip" = ([] : Bytes)) = False := by decide
    have e2 : (bs "gzip" = bs "deflate") = False := by decide
    simp only [BodyPart.decode, h, e1, e2, if_false]
    simp
  · intro bp data h
    have e1 : (bs "deflate" = ([] : Bytes)) = False := by decide
    simp only [BodyPart.decode, h, e1, if_false]
    simp
  · intro bp data enc h hne hgz hdf
    simp only [BodyPart.decode, h]
    rw [if_neg hne, if_neg hdf, if_neg hgz]

/-- Witness for C7 (amended): no header passes through; gzip dispatches to
the gzip decoder; the unsupported `br` raises the attribute error. -/
theorem claim_C7_witness :
    (c5BP.decode (bs "abc") = .ok (bs "abc"))
    ∧ (c7GzipBP.decode (gzipCompress (bs "hi"))
      = BodyPart.decode_gzip (gzipCompress (bs "hi")))
    ∧ (c7BrBP.decode (bs "abc")
      = .error (.attributeError (bs "decode_" ++ bs "br"))) :=
  ⟨claim_C7.1 c5BP (bs "abc") rfl,
   claim_C7.2.2.1 c7GzipBP (gzipCompress (bs "hi")) rfl,
   claim_C7.2.2.2.2 c7BrBP (bs "abc") (bs "br") rfl (by decide) (by decide)
     (by decide)⟩

/-! ## Claim C8 -/

/-- C8: for EVERY byte string `P`, a length-bounded part whose
Content-Encoding is `gzip` (resp. `deflate`) and whose raw payload bytes are
the gzip-compressed (resp. raw-deflate-compressed) form of `P` yields exactly
`P` from `read(decode=True)`. -/
theorem claim_C8 :
    (∀ (hdrs : Headers) (bnd : Bytes) (P rest : Bytes),
      Headers.get hdrs CONTENT_ENCODING = some (bs "gzip") →
      BodyPart.read ((gzipCompress P).length + 2)
          ⟨hdrs, bnd, false, some ((gzipCompress P).length), 0, []⟩ true
          (gzipCompress P ++ crlf ++ rest)
        = .ok (P, ⟨hdrs, bnd, true, some ((gzipCompress P).length),
            (gzipCompress P).length, []⟩, rest))
    ∧ (∀ (hdrs : Headers) (bnd : Bytes) (P rest : Bytes),
      Headers.get hdrs CONTENT_ENCODING = some (bs "deflate") →
      BodyPart.read ((deflateRawCompress P).length + 2)
          ⟨hdrs, bnd, false, some ((deflateRawCompress P).length), 0, []⟩ true
          (deflateRawCompress P ++ crlf ++ rest)
        = .ok (P, ⟨hdrs, bnd, true, some ((deflateRawCompress P).length),
            (deflateRawCompress P).length, []⟩, rest)) := by
  constructor
  · intro hdrs bnd P rest hCE
    have hgz : BodyPart.decode_gzip (gzipCompress P) = .ok P := by
      have h1 : BodyPart.decode_gzip (gzipCompress P) = .ok (P.reverse.reverse) := rfl
      rw [h1, List.reverse_reverse]
    have hdec : BodyPart.decode
        ⟨hdrs, bnd, true, some ((gzipCompress P).length),
          (gzipCompress P).length, []⟩ (gzipCompress P) = .ok P := by
      have e1 : (bs "gzip" = ([] : Bytes)) = False := by decide
      have e2 : (bs "gzip" = bs "deflate") = False := by decide
      simp only [BodyPart.decode, hCE, e1, e2, if_false]
      simp [hgz]
    exact read_length_decode rfl rfl rfl (gzipCompress P) rest rfl _
      (le_refl _) hdec
  · intro hdrs bnd P rest hCE
    have hdf : BodyPart.decode_deflate (deflateRawCompress P) = .ok P := by
      have h1 : BodyPart.decode_deflate (deflateRawCompress P)
          = .ok (P.reverse.reverse) := rfl
      rw [h1, List.reverse_reverse]
    have hdec : BodyPart.decode
        ⟨hdrs, bnd, true, some ((deflateRawCompress P).length),
          (deflateRawCompress P).length, []⟩ (deflateRawCompress P) = .ok P := by
      have e1 : (bs "deflate" = ([] : Bytes)) = False := by decide
      simp only [BodyPart.decode, hCE, e1, if_false]
      simp [hdf]
    exact read_length_decode rfl rfl rfl (deflateRawCompress P) rest rfl _
      (le_refl _) hdec

/-- Witness for C8 at the plaintext `b"hi"` for both encodings. -/
theorem claim_C8_witness :
    (BodyPart.read ((gzipCompress (bs "hi")).length + 2)
        ⟨[(CONTENT_ENCODING, bs "gzip")], bs "--b", false,
          some ((gzipCompress (bs "hi")).length), 0, []⟩ true
        (gzipCompress (bs "hi") ++ crlf ++ bs "tail")
      = .ok (bs "hi", ⟨[(CONTENT_ENCODING, bs "gzip")], bs "--b", true,
          some ((gzipCompress (bs "hi")).length),
          (gzipCompress (bs "hi")).length, []⟩, bs "tail"))
    ∧ (BodyPart.read ((deflateRawCompress (bs "hi")).length + 2)
        ⟨[(CONTENT_ENCODING, bs "deflate")], bs "--b", false,
          some ((deflateRawCompress (bs "hi")).length), 0, []⟩ true
        (deflateRawCompress (bs "hi") ++ crlf ++ bs "tail")
      = .ok (bs "hi", ⟨[(CONTENT_ENCODING, bs "deflate")], bs "--b", true,
          some ((deflateRawCompress (bs "hi")).length),
          (deflateRawCompress (bs "hi")).length, []⟩, bs "tail")) :=
  ⟨claim_C8.1 [(CONTENT_ENCODING, bs "gzip")] (bs "--b") (bs "hi") (bs "tail")
      rfl,
   claim_C8.2 [(CONTENT_ENCODING, bs "deflate")] (bs "--b") (bs "hi")
      (bs "tail") rfl⟩

/-! ## Claim C6 -/

/-- C6: `_get_part_reader` dispatches on the part's own Content-Type media
type: (1) `multipart/*` yields a nested `MultipartReader` over the same
shared stream (the single stream state of this model), with a NEW boundary
token derived from the part's own headers; (2)–(3) any other media type
yields a `BodyPartReader` bound to the parent reader's boundary token
(line-bounded without Content-Length, length-bounded with it). -/
theorem claim_C6 :
    (∀ (r : MReader) (hdrs : Headers) (ct b : Bytes),
      Headers.get hdrs CONTENT_TYPE = some ct →
      mimeMtype ct = bs "multipart" →
      paramsGet (mimeParams ct) (bs "boundary") = some b →
      r.getPartReader hdrs = .ok (.multi hdrs (dd ++ b) false none []))
    ∧ (∀ (r : MReader) (hdrs : Headers),
      mimeMtype ((Headers.get hdrs CONTENT_TYPE).getD []) ≠ bs "multipart" →
      Headers.get hdrs CONTENT_LENGTH = none →
      r.getPartReader hdrs = .ok (.body ⟨hdrs, r.boundary, false, none, 0, []⟩))
    ∧ (∀ (r : MReader) (hdrs : Headers) (v : Bytes) (n : Nat),
      mimeMtype ((Headers.get hdrs CONTENT_TYPE).getD []) ≠ bs "multipart" →
      Headers.get hdrs CONTENT_LENGTH = some v → parseNat v = some n →
      r.getPartReader hdrs
        = .ok (.body ⟨hdrs, r.boundary, false, some n, 0, []⟩)) := by
  refine ⟨?_, ?_, ?_⟩
  · intro r hdrs ct b hct hm hb
    have hget : (Headers.get hdrs CONTENT_TYPE).getD [] = ct := by
      rw [hct]; rfl
    simp only [MReader.getPartReader, hget, if_pos hm]
    simp only [MReader.init, hct]
    rw [if_neg (by simp [hm]), hb]
  · intro r hdrs hm hcl
    simp only [MReader.getPartReader, if_neg hm]
    simp only [BodyPart.init, hcl]
  · intro r hdrs v n hm hcl hv
    simp only [MReader.getPartReader, if_neg hm]
    simp only [BodyPart.init, hcl, hv]

/-- Witness for C6: a `multipart/related` part yields a nested reader on the
new `--SUB` boundary; a `text/plain` part yields a `BodyPartReader` on the
parent's `--PAR` boundary, in both the line- and length-bounded forms. -/
theorem claim_C6_witness :
    (c6Parent.getPartReader [(CONTENT_TYPE, c6CT)]
      = .ok (.multi [(CONTENT_TYPE, c6CT)] (dd ++ bs "SUB") false none []))
    ∧ (c6Parent.getPartReader [(CONTENT_TYPE, bs "text/plain")]
      = .ok (.body ⟨[(CONTENT_TYPE, bs "text/plain")], bs "--PAR",
          false, none, 0, []⟩))
    ∧ (c6Parent.getPartReader
        [(CONTENT_TYPE, bs "text/plain"), (CONTENT_LENGTH, bs "5")]
      = .ok (.body ⟨[(CONTENT_TYPE, bs "text/plain"), (CONTENT_LENGTH, bs "5")],
          bs "--PAR", false, some 5, 0, []⟩)) :=
  ⟨claim_C6.1 c6Parent [(CONTENT_TYPE, c6CT)] c6CT (bs "SUB") rfl
      (by decide) (by decide),
   claim_C6.2.1 c6Parent [(CONTENT_TYPE, bs "text/plain")] (by decide) rfl,
   claim_C6.2.2 c6Parent
      [(CONTENT_TYPE, bs "text/plain"), (CONTENT_LENGTH, bs "5")]
      (bs "5") 5 (by decide) (by decide) (by decide)⟩
